import Mathlib

/-!
Verification of `langchain_community/utilities/anysdk.py`.

The file embeds the data model and operations of the `anysdk` module:
the `CrudControls` configuration model and its `validate_environment`
root validator, the `AnySDKTool._run` invocation path, and
`AnySdkWrapper._build_operations`, together with a model of the parts of
the Python runtime the module leans on (truthiness, `str.split`,
substring tests, `getattr`/`AttributeError`, keyword unpacking, and the
`json` encoder and decoder used for tool input and output).
-/

/-! ### Python string primitives -/

/-- Model of `needle in hay` at the character-list level: `pfxList n h`
decides whether `n` is a prefix of `h`. -/
def pfxList : List Char → List Char → Bool
  | [], _ => true
  | _ :: _, [] => false
  | a :: as, b :: bs => a == b && pfxList as bs

/-- Model of the Python substring test `needle in hay` on character lists:
true when `n` occurs contiguously inside `h` (the empty list occurs in
everything, as in Python). -/
def subList (n : List Char) : List Char → Bool
  | [] => pfxList n []
  | c :: t => pfxList n (c :: t) || subList n t

/-- Model of the Python membership test `needle in hay` on strings. -/
def pyInStr (needle hay : String) : Bool :=
  subList needle.toList hay.toList

/-- Model of Python `s.startswith(p)`. -/
def pyStartsWith (s p : String) : Bool :=
  pfxList p.toList s.toList

/-- ASCII lowering of one character, as Python `str.lower` does on the
ASCII method names and keywords this module compares. -/
def lowerChar (c : Char) : Char :=
  if 'A' ≤ c && c ≤ 'Z' then Char.ofNat (c.toNat + 32) else c

/-- Model of Python `s.lower()`. -/
def pyLower (s : String) : String :=
  String.mk (s.toList.map lowerChar)

/-- Model of Python `s.split(",")` on character lists: splits at every
comma and always returns at least one (possibly empty) group, exactly as
`str.split` with an explicit separator does. -/
def commaSplitChars : List Char → List (List Char)
  | [] => [[]]
  | c :: rest =>
    if c = ',' then [] :: commaSplitChars rest
    else
      match commaSplitChars rest with
      | [] => [[c]]
      | g :: gs => (c :: g) :: gs

/-- Model of Python `s.split(",")` on strings. -/
def commaSplit (s : String) : List String :=
  (commaSplitChars s.toList).map String.mk

/-! ### Configuration values and `get_from_dict_or_env` -/

/-- A Python value as it can appear in the `values` dict seen by the
`CrudControls.validate_environment` root validator: a string (any
supplied field is coerced to `str` by the pydantic `Optional[str]` field
type before the validator runs), a bool (the hardcoded defaults of the
gate fields), or `None` (the default of the `*_list` fields). -/
inductive PyVal where
  | vstr (s : String)
  | vbool (b : Bool)
  | vnone
deriving Repr, DecidableEq

/-- Python truthiness of a configuration value: a string is truthy when
non-empty, a bool is itself, `None` is falsy. This is also the model of
the `bool(...)` coercion applied to the gate values. -/
def PyVal.truthy : PyVal → Bool
  | .vstr s => !s.isEmpty
  | .vbool b => b
  | .vnone => false

/-- Model of Python `value.split(",")` on a configuration value: only a
string has a `split` method; on a non-string this is an
`AttributeError`, modelled as `none`. -/
def PyVal.split : PyVal → Option (List String)
  | .vstr s => some (commaSplit s)
  | _ => none

/-- Modelled from the spec: `langchain_core.utils.get_from_env` is code
of this repository that is not under `src/`. Per the spec (§4.1, §6),
a missing field resolves via environment lookup and then a built-in
default, with best-effort truthiness: a present but empty environment
value is treated as absent. -/
def getFromEnv (envVal : Option String) (dflt : PyVal) : PyVal :=
  match envVal with
  | some s => if s.isEmpty then dflt else .vstr s
  | none => dflt

/-- Modelled from the spec: `langchain_core.utils.get_from_dict_or_env`
is code of this repository that is not under `src/`. Per the spec
(§4.1), a supplied field value is used when truthy; otherwise the value
resolves via environment lookup, then the built-in default. -/
def getFromDictOrEnv (dictVal : PyVal) (envVal : Option String) (dflt : PyVal) : PyVal :=
  if dictVal.truthy then dictVal else getFromEnv envVal dflt

/-! ### `CrudControls` and its root validator -/

/-- Module constant `ANYSDK_CRUD_CONTROLS_CREATE` (line 13). -/
def ANYSDK_CRUD_CONTROLS_CREATE : Bool := false

/-- Module constant `ANYSDK_CRUD_CONTROLS_READ` (line 14). -/
def ANYSDK_CRUD_CONTROLS_READ : Bool := true

/-- Module constant `ANYSDK_CRUD_CONTROLS_UPDATE` (line 15). -/
def ANYSDK_CRUD_CONTROLS_UPDATE : Bool := false

/-- Module constant `ANYSDK_CRUD_CONTROLS_DELETE` (line 16). -/
def ANYSDK_CRUD_CONTROLS_DELETE : Bool := false

/-- Module constant `ANYSDK_CRUD_CONTROLS_CREATE_LIST` (line 18). -/
def ANYSDK_CRUD_CONTROLS_CREATE_LIST : String := "create"

/-- Module constant `ANYSDK_CRUD_CONTROLS_READ_LIST` (line 19). -/
def ANYSDK_CRUD_CONTROLS_READ_LIST : String := "get,read,list"

/-- Module constant `ANYSDK_CRUD_CONTROLS_UPDATE_LIST` (line 20). -/
def ANYSDK_CRUD_CONTROLS_UPDATE_LIST : String := "update,put,post"

/-- Module constant `ANYSDK_CRUD_CONTROLS_DELETE_LIST` (line 21). -/
def ANYSDK_CRUD_CONTROLS_DELETE_LIST : String := "delete,destroy,remove"

/-- The constructor arguments of `CrudControls` as they reach the root
validator. All eight fields are declared `Optional[str]`, so a supplied
value has been coerced to a string by pydantic field validation before
`validate_environment` runs; `none` means the field was not supplied and
still holds its declared default (a bool for the four gates, `None` for
the four keyword lists). -/
structure CrudInputs where
  create : Option String
  create_list : Option String
  read : Option String
  read_list : Option String
  update : Option String
  update_list : Option String
  delete : Option String
  delete_list : Option String
deriving Repr, DecidableEq

/-- The values of the eight `ANYSDK_CRUD_CONTROLS_*` environment
variables (a set variable holds a string; an unset one is `none`). -/
structure CrudEnv where
  create : Option String
  create_list : Option String
  read : Option String
  read_list : Option String
  update : Option String
  update_list : Option String
  delete : Option String
  delete_list : Option String
deriving Repr, DecidableEq

/-- The state of a `CrudControls` instance after construction: four
boolean gates and four keyword lists. The list fields keep the `Option`
type because `_build_operations` tests them with `is not None`. -/
structure CrudControls where
  create : Bool
  create_list : Option (List String)
  read : Bool
  read_list : Option (List String)
  update : Bool
  update_list : Option (List String)
  delete : Bool
  delete_list : Option (List String)
deriving Repr, DecidableEq

/-- The `values` entry seen by `get_from_dict_or_env` for a field: the
supplied (already string-coerced) value if any, else the declared
pydantic default of that field. -/
def fieldVal : Option String → PyVal → PyVal
  | some s, _ => .vstr s
  | none, d => d

/-- Embedding of `CrudControls.validate_environment` (lines 34-100).
Each gate resolves through `get_from_dict_or_env` and is coerced with
`bool(...)`; each keyword list resolves through `get_from_dict_or_env`
and is split on commas with `str.split`. `none` models an exception
escaping the validator (a `split` call on a non-string value). -/
def validateEnvironment (v : CrudInputs) (env : CrudEnv) : Option CrudControls := do
  let createVal := getFromDictOrEnv (fieldVal v.create (.vbool ANYSDK_CRUD_CONTROLS_CREATE))
    env.create (.vbool ANYSDK_CRUD_CONTROLS_CREATE)
  let createList ← (getFromDictOrEnv (fieldVal v.create_list .vnone)
    env.create_list (.vstr ANYSDK_CRUD_CONTROLS_CREATE_LIST)).split
  let readVal := getFromDictOrEnv (fieldVal v.read (.vbool ANYSDK_CRUD_CONTROLS_READ))
    env.read (.vbool ANYSDK_CRUD_CONTROLS_READ)
  let readList ← (getFromDictOrEnv (fieldVal v.read_list .vnone)
    env.read_list (.vstr ANYSDK_CRUD_CONTROLS_READ_LIST)).split
  let updateVal := getFromDictOrEnv (fieldVal v.update (.vbool ANYSDK_CRUD_CONTROLS_UPDATE))
    env.update (.vbool ANYSDK_CRUD_CONTROLS_UPDATE)
  let updateList ← (getFromDictOrEnv (fieldVal v.update_list .vnone)
    env.update_list (.vstr ANYSDK_CRUD_CONTROLS_UPDATE_LIST)).split
  let deleteVal := getFromDictOrEnv (fieldVal v.delete (.vbool ANYSDK_CRUD_CONTROLS_DELETE))
    env.delete (.vbool ANYSDK_CRUD_CONTROLS_DELETE)
  let deleteList ← (getFromDictOrEnv (fieldVal v.delete_list .vnone)
    env.delete_list (.vstr ANYSDK_CRUD_CONTROLS_DELETE_LIST)).split
  pure {
    create := createVal.truthy
    create_list := some createList
    read := readVal.truthy
    read_list := some readList
    update := updateVal.truthy
    update_list := some updateList
    delete := deleteVal.truthy
    delete_list := some deleteList }

/-- A value supplied to the `CrudControls` constructor for one of its
eight `Optional[str]` fields, before pydantic field validation runs:
a string, an explicit list, or nothing (the shapes the spec discusses;
numeric and boolean inputs, which pydantic would coerce to their `str`
rendering, are subsumed by the string case). -/
inductive FieldSupplied where
  | fstr (s : String)
  | flist (l : List String)
  | fnone
deriving Repr, DecidableEq

/-- Embedding of pydantic v1 field validation for an `Optional[str]`
field of `CrudControls` (lines 25-32): a supplied string passes, an
absent value keeps the declared default (`none` here), and a supplied
list is rejected with a `ValidationError` — the pydantic v1 `str`
validator accepts only strings, bytes and numbers, never a list. -/
def validateStrField : FieldSupplied → Except String (Option String)
  | .fstr s => .ok (some s)
  | .fnone => .ok none
  | .flist _ => .error "ValidationError: str type expected"

/-- The eight constructor arguments of `CrudControls` before pydantic
field validation. -/
structure CrudSupplied where
  create : FieldSupplied
  create_list : FieldSupplied
  read : FieldSupplied
  read_list : FieldSupplied
  update : FieldSupplied
  update_list : FieldSupplied
  delete : FieldSupplied
  delete_list : FieldSupplied
deriving Repr, DecidableEq

/-- Pydantic field validation of all eight `CrudControls` fields,
producing the values the root validator then sees. -/
def validateSupplied (s : CrudSupplied) : Except String CrudInputs := do
  let c ← validateStrField s.create
  let cl ← validateStrField s.create_list
  let r ← validateStrField s.read
  let rl ← validateStrField s.read_list
  let u ← validateStrField s.update
  let ul ← validateStrField s.update_list
  let d ← validateStrField s.delete
  let dl ← validateStrField s.delete_list
  .ok ⟨c, cl, r, rl, u, ul, d, dl⟩

/-- Full construction of a `CrudControls` instance: pydantic field
validation of every supplied value against its declared `Optional[str]`
type, then the `validate_environment` root validator. -/
def mkCrudControls (s : CrudSupplied) (env : CrudEnv) :
    Except String (Option CrudControls) :=
  (validateSupplied s).map (fun i => validateEnvironment i env)

/-- The per-category keyword test of `_build_operations`: the list is
not `None` and some keyword is a case-insensitive substring of the
method name (`word.lower() in func_name.lower()`). -/
def keywordMatch (kwList : Option (List String)) (funcName : String) : Bool :=
  match kwList with
  | none => false
  | some ws => ws.any (fun w => pyInStr (pyLower w) (pyLower funcName))

/-- The four CRUD categories. -/
inductive Crud where
  | create
  | read
  | update
  | delete
deriving Repr, DecidableEq

/-- The boolean gate of a category in a `CrudControls` instance. -/
def CrudControls.gate (p : CrudControls) : Crud → Bool
  | .create => p.create
  | .read => p.read
  | .update => p.update
  | .delete => p.delete

/-- The keyword-list field of a category in a `CrudControls` instance. -/
def CrudControls.kwlist (p : CrudControls) : Crud → Option (List String)
  | .create => p.create_list
  | .read => p.read_list
  | .update => p.update_list
  | .delete => p.delete_list

/-- The keyword list of a category, with the (after construction
unreachable) `None` case reading as the empty list. -/
def CrudControls.keywords (p : CrudControls) (c : Crud) : List String :=
  (p.kwlist c).getD []

/-- The classification of a method name by a policy: the categories
whose test in `_build_operations` (lines 172-199) passes, in the fixed
evaluation order create, read, update, delete. -/
def classify (p : CrudControls) (m : String) : List Crud :=
  [Crud.create, Crud.read, Crud.update, Crud.delete].filter
    (fun c => p.gate c && keywordMatch (p.kwlist c) m)

/-! ### The SDK client model and `AnySDKTool._run` -/

/-- A Python exception, distinguished by class: `_run` catches exactly
`AttributeError`. -/
inductive PyExn where
  | attributeError (msg : String)
  | typeError (msg : String)
  | otherError (msg : String)
deriving Repr, DecidableEq

/-- A JSON value (the shape of decoded tool input and of JSON-native
data). Numbers are modelled as integers. -/
inductive JVal where
  | jnull
  | jbool (b : Bool)
  | jint (n : Int)
  | jstr (s : String)
  | jarr (elems : List JVal)
  | jobj (fields : List (String × JVal))

/-- A Python keyword-argument mapping with JSON-shaped values. -/
abbrev PyDict := List (String × JVal)

/-- A value returned by an underlying client method: JSON-native data,
or a non-serializable object carried with its `str(...)` rendering. -/
inductive PyRet where
  | rnull
  | rbool (b : Bool)
  | rint (n : Int)
  | rstr (s : String)
  | rlist (elems : List PyRet)
  | rdict (fields : List (String × PyRet))
  | robj (str_val : String)

/-- An attribute of the SDK client object: a callable method (with its
docstring and behaviour) or a plain non-callable value. -/
inductive SdkAttr where
  | method (doc : Option String) (impl : PyDict → Except PyExn PyRet)
  | value (v : JVal)

/-- The external SDK client object, as the module sees it: its attribute
listing in the order `dir` produces it, each name with its attribute. -/
structure SdkClient where
  attrs : List (String × SdkAttr)

/-- Model of Python `callable(...)` on a client attribute. -/
def SdkAttr.callable : SdkAttr → Bool
  | .method _ _ => true
  | .value _ => false

/-- Model of `getattr(client, n)`: `none` models a raised
`AttributeError`. -/
def SdkClient.getattr (c : SdkClient) (n : String) : Option SdkAttr :=
  c.attrs.lookup n

/-- The docstring `func.__doc__` of a client attribute reached through
`getattr` (absent when the attribute is missing, non-callable, or has no
docstring). -/
def docOf (c : SdkClient) (n : String) : Option String :=
  match c.getattr n with
  | some (SdkAttr.method d _) => d
  | _ => none

/-- The `tool_input` argument of `_run`, typed
`Union[str, dict, None]`: a mapping, a string, `None`, or a value of
any other type. -/
inductive ToolInput where
  | dict (d : PyDict)
  | str (s : String)
  | pynone
  | other

/-! ### JSON encoder and decoder -/

/-- The character of a decimal digit. -/
def digitChar (d : Nat) : Char := Char.ofNat (48 + d)

/-- Decimal digits of a natural number, most significant first; the
fuel argument makes the recursion structural and `n + 1` fuel always
suffices. -/
def natCharsAux : Nat → Nat → List Char
  | 0, _ => []
  | fuel + 1, n =>
    if n < 10 then [digitChar n]
    else natCharsAux fuel (n / 10) ++ [digitChar (n % 10)]

/-- Decimal digits of a natural number, most significant first. -/
def natChars (n : Nat) : List Char := natCharsAux (n + 1) n

/-- Decimal rendering of an integer, as the JSON encoder prints it. -/
def intChars (i : Int) : List Char :=
  if i < 0 then '-' :: natChars i.natAbs else natChars i.toNat

/-- JSON string escaping of one character: backslash and double quote
are escaped, every other character is printed as itself. -/
def escChar (c : Char) : List Char :=
  if c = '\\' then ['\\', '\\']
  else if c = '\"' then ['\\', '\"']
  else [c]

/-- JSON string escaping of a character list. -/
def escChars : List Char → List Char
  | [] => []
  | c :: cs => escChar c ++ escChars cs

/-- A JSON string literal: the escaped content between double quotes. -/
def strChars (s : String) : List Char :=
  '\"' :: (escChars s.toList ++ ['\"'])

mutual

/-- Modelled from the spec: the `json.dumps` encoder (Python standard
library, not under `src/`) rendering a JSON value to characters;
per the spec (§4.2) serialization is lossless for JSON-native types. -/
def jprint : JVal → List Char
  | .jnull => ['n', 'u', 'l', 'l']
  | .jbool true => ['t', 'r', 'u', 'e']
  | .jbool false => ['f', 'a', 'l', 's', 'e']
  | .jint i => intChars i
  | .jstr s => strChars s
  | .jarr xs => '[' :: (jprintItems xs ++ [']'])
  | .jobj kvs => '\x7b' :: (jprintFields kvs ++ ['\x7d'])

/-- Comma-separated rendering of array elements. -/
def jprintItems : List JVal → List Char
  | [] => []
  | [x] => jprint x
  | x :: y :: rest => jprint x ++ (',' :: jprintItems (y :: rest))

/-- Comma-separated rendering of object members. -/
def jprintFields : List (String × JVal) → List Char
  | [] => []
  | [(k, v)] => strChars k ++ (':' :: jprint v)
  | (k, v) :: p :: rest =>
      strChars k ++ (':' :: (jprint v ++ (',' :: jprintFields (p :: rest))))

end

/-- The string produced by the JSON encoder for a JSON value. -/
def jdumps (v : JVal) : String := String.mk (jprint v)

/-- Longest digit prefix of a character list, with the remainder. -/
def takeDigits : List Char → (List Char × List Char)
  | [] => ([], [])
  | c :: cs =>
    if c.isDigit then
      match takeDigits cs with
      | (ds, r) => (c :: ds, r)
    else ([], c :: cs)

/-- The natural number denoted by a list of decimal digit characters. -/
def digitsVal (ds : List Char) : Nat :=
  ds.foldl (fun acc c => acc * 10 + (c.toNat - 48)) 0

/-- Parse a nonempty run of decimal digits. -/
def parseDecimal (l : List Char) : Option (Nat × List Char) :=
  match takeDigits l with
  | ([], _) => none
  | (ds, r) => some (digitsVal ds, r)

/-- Parse the content of a JSON string literal after its opening quote,
unescaping backslash and quote escapes, up to the closing quote. -/
def parseStrChars : List Char → Option (List Char × List Char)
  | [] => none
  | '\"' :: rest => some ([], rest)
  | '\\' :: e :: rest2 =>
    if e = '\\' || e = '\"' then
      (parseStrChars rest2).map (fun p => (e :: p.1, p.2))
    else none
  | c :: rest => (parseStrChars rest).map (fun p => (c :: p.1, p.2))

mutual

/-- Modelled from the spec: the `json.loads` decoder (Python standard
library, not under `src/`) reading one JSON value from a character
list, with fuel making the recursion structural. Returns the value and
the unconsumed remainder, or `none` on malformed input. -/
def jparseV : Nat → List Char → Option (JVal × List Char)
  | 0, _ => none
  | _ + 1, [] => none
  | f + 1, c :: rest =>
    if c.isDigit then
      (parseDecimal (c :: rest)).map (fun p => (JVal.jint (Int.ofNat p.1), p.2))
    else if c = '-' then
      (parseDecimal rest).map (fun p => (JVal.jint (-(Int.ofNat p.1)), p.2))
    else if c = '\"' then
      (parseStrChars rest).map (fun p => (JVal.jstr (String.mk p.1), p.2))
    else if c = '[' then
      (jparseItems f rest).map (fun p => (JVal.jarr p.1, p.2))
    else if c = '\x7b' then
      (jparseFields f rest).map (fun p => (JVal.jobj p.1, p.2))
    else if c = 'n' then
      match rest with
      | 'u' :: 'l' :: 'l' :: r => some (JVal.jnull, r)
      | _ => none
    else if c = 't' then
      match rest with
      | 'r' :: 'u' :: 'e' :: r => some (JVal.jbool true, r)
      | _ => none
    else if c = 'f' then
      match rest with
      | 'a' :: 'l' :: 's' :: 'e' :: r => some (JVal.jbool false, r)
      | _ => none
    else none

/-- Parse the element list of a JSON array after its opening bracket,
including the closing bracket. -/
def jparseItems : Nat → List Char → Option (List JVal × List Char)
  | 0, _ => none
  | f + 1, l =>
    match jparseV f l with
    | some (v, rest) =>
      match rest with
      | ',' :: rest2 => (jparseItems f rest2).map (fun p => (v :: p.1, p.2))
      | ']' :: rest2 => some ([v], rest2)
      | _ => none
    | none =>
      match l with
      | ']' :: rest => some (([] : List JVal), rest)
      | _ => none

/-- Parse the member list of a JSON object after its opening brace,
including the closing brace. -/
def jparseFields : Nat → List Char → Option (List (String × JVal) × List Char)
  | 0, _ => none
  | f + 1, l =>
    match l with
    | '\x7d' :: rest => some ([], rest)
    | '\"' :: rest =>
      match parseStrChars rest with
      | some (k, rest1) =>
        match rest1 with
        | ':' :: rest2 =>
          match jparseV f rest2 with
          | some (v, rest3) =>
            match rest3 with
            | ',' :: rest4 =>
                (jparseFields f rest4).map (fun p => ((String.mk k, v) :: p.1, p.2))
            | '\x7d' :: rest4 => some ([(String.mk k, v)], rest4)
            | _ => none
          | none => none
        | _ => none
      | none => none
    | _ => none

end

/-- Modelled from the spec: `json.loads` (Python standard library, not
under `src/`) on a whole string; `none` models a raised
`JSONDecodeError`. -/
def jparse (s : String) : Option JVal :=
  match jparseV (s.toList.length + 1) s.toList with
  | some (v, []) => some v
  | _ => none

mutual

/-- Modelled from the spec: the effect of the `default=str` fallback of
`json.dumps` (§4.2: a JSON encoder configured to stringify any
otherwise-non-serializable value) — every non-native leaf is replaced
by the JSON string of its `str(...)` rendering. -/
def degrade : PyRet → JVal
  | .rnull => .jnull
  | .rbool b => .jbool b
  | .rint n => .jint n
  | .rstr s => .jstr s
  | .robj s => .jstr s
  | .rlist xs => .jarr (degradeList xs)
  | .rdict kvs => .jobj (degradeFields kvs)

/-- Elementwise `degrade` on a list of return values. -/
def degradeList : List PyRet → List JVal
  | [] => []
  | x :: xs => degrade x :: degradeList xs

/-- Memberwise `degrade` on the fields of a returned mapping. -/
def degradeFields : List (String × PyRet) → List (String × JVal)
  | [] => []
  | (k, v) :: rest => (k, degrade v) :: degradeFields rest

end

mutual

/-- The JSON value equal to a returned value when the return value is
built only from JSON-native types; `none` when any non-serializable
leaf occurs in it. -/
def retToJ : PyRet → Option JVal
  | .rnull => some .jnull
  | .rbool b => some (.jbool b)
  | .rint n => some (.jint n)
  | .rstr s => some (.jstr s)
  | .robj _ => none
  | .rlist xs => (retToJList xs).map JVal.jarr
  | .rdict kvs => (retToJFields kvs).map JVal.jobj

/-- Elementwise `retToJ` on a list of return values. -/
def retToJList : List PyRet → Option (List JVal)
  | [] => some []
  | x :: xs =>
    match retToJ x, retToJList xs with
    | some v, some vs => some (v :: vs)
    | _, _ => none

/-- Memberwise `retToJ` on the fields of a returned mapping. -/
def retToJFields : List (String × PyRet) → Option (List (String × JVal))
  | [] => some []
  | (k, v) :: rest =>
    match retToJ v, retToJFields rest with
    | some w, some ws => some ((k, w) :: ws)
    | _, _ => none

end

/-- Model of `json.dumps(result, default=str)` (line 128): the encoder
output after stringifying non-serializable leaves. -/
def jdumpsDefaultStr (r : PyRet) : String := jdumps (degrade r)

/-- True when the list does not start with a decimal digit (the shape
of every continuation the encoder can emit after a number). -/
def headNotDigit : List Char → Bool
  | [] => true
  | c :: _ => !c.isDigit

mutual

/-- A fuel amount sufficient for the decoder to read back the encoding
of a value. -/
def jfuel : JVal → Nat
  | .jnull => 1
  | .jbool _ => 1
  | .jint _ => 1
  | .jstr _ => 1
  | .jarr xs => 1 + jfuelItems xs
  | .jobj kvs => 1 + jfuelFields kvs

/-- Fuel sufficient for the element loop of an encoded array. -/
def jfuelItems : List JVal → Nat
  | [] => 1
  | [x] => 1 + jfuel x
  | x :: y :: rest => 1 + jfuel x + jfuelItems (y :: rest)

/-- Fuel sufficient for the member loop of an encoded object. -/
def jfuelFields : List (String × JVal) → Nat
  | [] => 1
  | [(_, v)] => 1 + jfuel v
  | (_, v) :: p :: rest => 1 + jfuel v + jfuelFields (p :: rest)

end

/-- The keyword-argument set `_run` resolves from its input
(lines 116-124): a mapping is used directly; a string is decoded as
JSON, an undecodable string falls back to the empty set; `None` and any
other input type resolve to the empty set. -/
def resolveParams : ToolInput → JVal
  | .dict d => .jobj d
  | .str s =>
    match jparse s with
    | some v => v
    | none => .jobj []
  | .pynone => .jobj []
  | .other => .jobj []

/-- Embedding of `AnySDKTool._run` (lines 110-130). Mirroring the
source order, the keyword-argument set is resolved first (lines
116-124; this step never raises — the inner `except JSONDecodeError`
absorbs the only possible failure), then the attribute lookup of line
126 runs, then the call and the serialization of lines 127-128. The
whole body runs under `except AttributeError`: a failed `getattr`
returns the invalid-name string, and so does an `AttributeError` raised
inside the underlying call; every other exception propagates
(`Except.error`). Unpacking a non-mapping with `**` is a `TypeError`
raised while setting up the call, and calling a non-callable attribute
is a `TypeError` raised at the call itself. -/
def runTool (c : SdkClient) (n : String) (input : ToolInput) : Except PyExn String :=
  let params := resolveParams input
  match c.getattr n with
  | none => .ok ("Invalid function name: " ++ n)
  | some (.value _) =>
    match params with
    | .jobj _ => .error (.typeError "object is not callable")
    | _ => .error (.typeError "argument after double-star must be a mapping")
  | some (.method _ impl) =>
    match params with
    | .jobj kvs =>
      match impl kvs with
      | .ok r => .ok (jdumpsDefaultStr r)
      | .error (.attributeError _) => .ok ("Invalid function name: " ++ n)
      | .error e => .error e
    | _ => .error (.typeError "argument after double-star must be a mapping")

/-! ### `AnySdkWrapper._build_operations` -/

/-- An `AnySDKTool` instance as `_build_operations` creates it (the
shared client handle is passed separately at invocation time). Both
fields are declared `str` on the pydantic model. -/
structure AnySDKTool where
  name : String
  description : String
deriving Repr, DecidableEq

/-- Construction of an `AnySDKTool` (lines 169-171): pydantic validates
`description` against its declared type `str`, so passing the `None`
docstring of an undocumented method raises a `ValidationError`,
modelled as `Except.error`. -/
def mkAnySDKTool (n : String) (doc : Option String) : Except String AnySDKTool :=
  match doc with
  | some d => .ok ⟨n, d⟩
  | none => .error ("ValidationError: none is not an allowed value for description of " ++ n)

/-- The `sdk_functions` comprehension (lines 158-165): the attribute
names of the client that are callable and do not start with an
underscore, in listing order. -/
def sdkFunctions (c : SdkClient) : List String :=
  (c.attrs.map Prod.fst).filter
    (fun n =>
      (match c.getattr n with
       | some a => a.callable
       | none => false) && !pyStartsWith n "_")

/-- The operations appended for one method name (lines 172-199): under
an absent policy nothing is appended; under a present policy the tool is
appended once per category whose gate is enabled, whose list is not
`None`, and one of whose keywords matches case-insensitively — in the
order create, read, update, delete. -/
def matchedOps (cc : Option CrudControls) (funcName : String) (op : AnySDKTool) :
    List AnySDKTool :=
  match cc with
  | none => []
  | some p =>
    (if p.create && keywordMatch p.create_list funcName then [op] else []) ++
    ((if p.read && keywordMatch p.read_list funcName then [op] else []) ++
     ((if p.update && keywordMatch p.update_list funcName then [op] else []) ++
      (if p.delete && keywordMatch p.delete_list funcName then [op] else [])))

/-- The loop body of `_build_operations` over the function names: for
each name the `AnySDKTool` is constructed first (its construction can
fail on a `None` docstring, and this happens before any policy check),
then the per-category appends run. -/
def buildOpsAux (c : SdkClient) (cc : Option CrudControls) :
    List String → Except String (List AnySDKTool)
  | [] => Except.ok []
  | n :: rest =>
    match mkAnySDKTool n (docOf c n) with
    | Except.error e => Except.error e
    | Except.ok op =>
      match buildOpsAux c cc rest with
      | Except.error e => Except.error e
      | Except.ok tail => Except.ok (matchedOps cc n op ++ tail)

/-- Embedding of `AnySdkWrapper._build_operations` (lines 156-201). -/
def buildOperations (c : SdkClient) (cc : Option CrudControls) :
    Except String (List AnySDKTool) :=
  buildOpsAux c cc (sdkFunctions c)

/-- The wrapper after `__init__`: it holds the operations list computed
once at construction. -/
structure AnySdkWrapper where
  operations : List AnySDKTool
deriving Repr, DecidableEq

/-- Embedding of `AnySdkWrapper.__init__` (lines 152-154). -/
def mkAnySdkWrapper (c : SdkClient) (cc : Option CrudControls) :
    Except String AnySdkWrapper :=
  (buildOperations c cc).map (fun ops => ⟨ops⟩)

/-- Embedding of `AnySdkWrapper.get_tools` (lines 203-205). -/
def AnySdkWrapper.get_tools (w : AnySdkWrapper) : List AnySDKTool :=
  w.operations

/-! ### Concrete fixtures used to instantiate the theorems -/

/-- A JSON-native nested return value. -/
def retWidget : PyRet :=
  .rdict [("id", .rint 5), ("tags", .rlist [.rstr "a", .rbool true]), ("x", .rnull)]

/-- The JSON value of `retWidget`. -/
def jWidget : JVal :=
  .jobj [("id", .jint 5), ("tags", .jarr [.jstr "a", .jbool true]), ("x", .jnull)]

/-- A client method that returns `retWidget` for any arguments. -/
def widgetImpl : PyDict → Except PyExn PyRet := fun _ => .ok retWidget

/-- The client of the default-policy scenario: public callables
`create_widget` and `get_widget` plus the underscore-prefixed
`_internal`, listed in the sorted order `dir` yields. -/
def exampleClient : SdkClient :=
  ⟨[("_internal", .method (some "Internal helper.") widgetImpl),
    ("create_widget", .method (some "Create a widget.") widgetImpl),
    ("get_widget", .method (some "Get a widget.") widgetImpl)]⟩

/-- The `CrudControls` state produced by construction with no supplied
fields and no environment variables (all module defaults). -/
def defaultPolicy : CrudControls :=
  ⟨false, some ["create"], true, some ["get", "read", "list"],
   false, some ["update", "put", "post"], false, some ["delete", "destroy", "remove"]⟩

/-- Constructor arguments supplying none of the eight fields. -/
def defaultInputs : CrudInputs := ⟨none, none, none, none, none, none, none, none⟩

/-- Constructor arguments supplying none of the eight fields, before
field validation. -/
def allNoneSupplied : CrudSupplied :=
  ⟨.fnone, .fnone, .fnone, .fnone, .fnone, .fnone, .fnone, .fnone⟩

/-- An environment with none of the eight variables set. -/
def emptyEnv : CrudEnv := ⟨none, none, none, none, none, none, none, none⟩

/-- A client method that raises `AttributeError` from inside its body. -/
def attrRaiser : PyDict → Except PyExn PyRet :=
  fun _ => .error (.attributeError "boom")

/-- A client whose resolvable method `get_data` raises `AttributeError`
when called. -/
def c3Client : SdkClient := ⟨[("get_data", .method (some "Gets data.") attrRaiser)]⟩

/-- A client method that raises a non-`AttributeError` exception. -/
def netRaiser : PyDict → Except PyExn PyRet :=
  fun _ => .error (.otherError "network down")

/-- A client whose resolvable method `get_data` raises a network-style
error when called. -/
def c3bClient : SdkClient := ⟨[("get_data", .method (some "Gets data.") netRaiser)]⟩

/-- A trivial client method used for fixtures. -/
def noDocImpl : PyDict → Except PyExn PyRet := fun _ => .ok .rnull

/-- A client whose single public callable method has no docstring. -/
def noDocClient : SdkClient := ⟨[("get_stuff", .method none noDocImpl)]⟩

/-- A client with no attributes at all. -/
def emptyClient : SdkClient := ⟨[]⟩

/-- A policy with both the read and the update gates enabled. -/
def dupPolicy : CrudControls :=
  ⟨false, some ["create"], true, some ["get", "read", "list"],
   true, some ["update", "put", "post"], false, some ["delete", "destroy", "remove"]⟩

/-- A client whose single method name matches both a read keyword and an
update keyword. -/
def dupClient : SdkClient :=
  ⟨[("get_update_widget", .method (some "Get or update.") widgetImpl)]⟩

/-! ### Helper lemmas -/

/-- The keyword-list resolution chain of the validator always produces a
string: the supplied value, the environment value, or the string
default. -/
theorem listResolve_vstr (o e : Option String) (d : String) :
    ∃ s, getFromDictOrEnv (fieldVal o PyVal.vnone) e (PyVal.vstr d) = PyVal.vstr s := by
  cases o with
  | none =>
    cases e with
    | none => exact ⟨d, rfl⟩
    | some es =>
      by_cases hes : es.isEmpty
      · exact ⟨d, by simp [getFromDictOrEnv, fieldVal, PyVal.truthy, getFromEnv, hes]⟩
      · exact ⟨es, by simp [getFromDictOrEnv, fieldVal, PyVal.truthy, getFromEnv, hes]⟩
  | some s =>
    by_cases hs : s.isEmpty
    · cases e with
      | none => exact ⟨d, by simp [getFromDictOrEnv, fieldVal, PyVal.truthy, getFromEnv, hs]⟩
      | some es =>
        by_cases hes : es.isEmpty
        · exact ⟨d, by simp [getFromDictOrEnv, fieldVal, PyVal.truthy, getFromEnv, hs, hes]⟩
        · exact ⟨es, by simp [getFromDictOrEnv, fieldVal, PyVal.truthy, getFromEnv, hs, hes]⟩
    · exact ⟨s, by simp [getFromDictOrEnv, fieldVal, PyVal.truthy, hs]⟩

/-- Splitting on commas never yields the empty group list. -/
theorem commaSplitChars_ne_nil (l : List Char) : commaSplitChars l ≠ [] := by
  induction l with
  | nil => simp [commaSplitChars]
  | cons c rest ih =>
    simp only [commaSplitChars]
    split
    · simp
    · split
      · simp
      · simp

/-- The string-level comma split never yields the empty list. -/
theorem commaSplit_ne_nil (s : String) : commaSplit s ≠ [] := by
  intro hcontra
  have := commaSplitChars_ne_nil s.toList
  simp [commaSplit] at hcontra
  exact this hcontra

/-- After a successful run of the validator, each of the four keyword
lists is the comma split of some string. -/
theorem validate_fields (i : CrudInputs) (env : CrudEnv) (p : CrudControls)
    (h : validateEnvironment i env = some p) :
    (∃ s, p.create_list = some (commaSplit s)) ∧
    (∃ s, p.read_list = some (commaSplit s)) ∧
    (∃ s, p.update_list = some (commaSplit s)) ∧
    (∃ s, p.delete_list = some (commaSplit s)) := by
  obtain ⟨s1, e1⟩ := listResolve_vstr i.create_list env.create_list ANYSDK_CRUD_CONTROLS_CREATE_LIST
  obtain ⟨s2, e2⟩ := listResolve_vstr i.read_list env.read_list ANYSDK_CRUD_CONTROLS_READ_LIST
  obtain ⟨s3, e3⟩ := listResolve_vstr i.update_list env.update_list ANYSDK_CRUD_CONTROLS_UPDATE_LIST
  obtain ⟨s4, e4⟩ := listResolve_vstr i.delete_list env.delete_list ANYSDK_CRUD_CONTROLS_DELETE_LIST
  unfold validateEnvironment at h
  rw [e1, e2, e3, e4] at h
  simp only [PyVal.split, Option.bind_eq_bind, Option.some_bind, Option.some.injEq, pure] at h
  subst h
  exact ⟨⟨s1, rfl⟩, ⟨s2, rfl⟩, ⟨s3, rfl⟩, ⟨s4, rfl⟩⟩

/-- `keywordMatch` on a present list is the existence of a matching
keyword. -/
theorem keywordMatch_iff (l : List String) (m : String) :
    keywordMatch (some l) m = true ↔
      ∃ w ∈ l, pyInStr (pyLower w) (pyLower m) = true := by
  simp [keywordMatch, List.any_eq_true]

/-- The per-name appends of `_build_operations` under a present policy
are one copy of the tool per classified category. -/
theorem matchedOps_eq_classify (p : CrudControls) (n : String) (t : AnySDKTool) :
    matchedOps (some p) n t = (classify p n).map (fun _ => t) := by
  cases hc : p.create && keywordMatch p.create_list n <;>
    cases hr : p.read && keywordMatch p.read_list n <;>
      cases hu : p.update && keywordMatch p.update_list n <;>
        cases hd : p.delete && keywordMatch p.delete_list n <;>
          simp [matchedOps, classify, List.filter, CrudControls.gate, CrudControls.kwlist,
            hc, hr, hu, hd]

/-- Under an absent policy the loop of `_build_operations` appends
nothing, provided every listed method has a docstring. -/
theorem buildOpsAux_none_ok (c : SdkClient) (ns : List String)
    (h : ∀ n ∈ ns, (docOf c n).isSome = true) :
    buildOpsAux c none ns = Except.ok [] := by
  induction ns with
  | nil => rfl
  | cons n rest ih =>
    obtain ⟨d, hd⟩ := Option.isSome_iff_exists.mp (h n (by simp))
    have ih2 := ih (fun m hm => h m (by simp [hm]))
    simp [buildOpsAux, hd, mkAnySDKTool, ih2, matchedOps]

/-- The loop of `_build_operations` succeeds whenever every listed
method has a docstring. -/
theorem buildOpsAux_ok_of_docs (c : SdkClient) (cc : Option CrudControls) (ns : List String)
    (h : ∀ n ∈ ns, (docOf c n).isSome = true) :
    ∃ ops, buildOpsAux c cc ns = Except.ok ops := by
  induction ns with
  | nil => exact ⟨[], rfl⟩
  | cons n rest ih =>
    obtain ⟨d, hd⟩ := Option.isSome_iff_exists.mp (h n (by simp))
    obtain ⟨tail, htail⟩ := ih (fun m hm => h m (by simp [hm]))
    exact ⟨matchedOps cc n ⟨n, d⟩ ++ tail, by simp [buildOpsAux, hd, mkAnySDKTool, htail]⟩

/-- A successful run of the loop of `_build_operations` produces, for
each listed name in order, the per-name appends for the tool built from
that name and its docstring. -/
theorem buildOpsAux_ok_eq (c : SdkClient) (cc : Option CrudControls) (ns : List String)
    (ops : List AnySDKTool) (h : buildOpsAux c cc ns = Except.ok ops) :
    ops = ns.bind (fun n => matchedOps cc n ⟨n, (docOf c n).getD ""⟩) := by
  induction ns generalizing ops with
  | nil =>
    simp only [buildOpsAux] at h
    cases h
    simp
  | cons n rest ih =>
    simp only [buildOpsAux] at h
    cases hd : docOf c n with
    | none => rw [hd] at h; simp [mkAnySDKTool] at h
    | some d =>
      rw [hd] at h
      simp only [mkAnySDKTool] at h
      cases htail : buildOpsAux c cc rest with
      | error e => rw [htail] at h; simp at h
      | ok tail =>
        rw [htail] at h
        simp only [Except.ok.injEq] at h
        subst h
        rw [ih tail htail]
        simp [hd]

/-! ### Claim theorems -/

/-- C1: for a `CrudControls` instance produced by construction, the
classification of a method name `m` includes a category `c` iff the
boolean gate of `c` is enabled and at least one keyword in the keyword
list of `c` is a case-insensitive substring of `m`. -/
theorem c1_classify_iff (i : CrudInputs) (env : CrudEnv) (p : CrudControls)
    (h : validateEnvironment i env = some p) (m : String) (cat : Crud) :
    cat ∈ classify p m ↔
      (p.gate cat = true ∧ ∃ w ∈ p.keywords cat, pyInStr (pyLower w) (pyLower m) = true) := by
  obtain ⟨⟨s1, e1⟩, ⟨s2, e2⟩, ⟨s3, e3⟩, ⟨s4, e4⟩⟩ := validate_fields i env p h
  have hkw : ∃ l, p.kwlist cat = some l := by
    cases cat
    · exact ⟨_, e1⟩
    · exact ⟨_, e2⟩
    · exact ⟨_, e3⟩
    · exact ⟨_, e4⟩
  obtain ⟨l, hl⟩ := hkw
  have hmem : cat ∈ [Crud.create, Crud.read, Crud.update, Crud.delete] := by
    cases cat <;> simp
  rw [classify, List.mem_filter]
  rw [CrudControls.keywords, hl]
  simp only [hmem, true_and, Bool.and_eq_true, Option.getD_some]
  exact and_congr Iff.rfl (keywordMatch_iff l m)

/-- C1 witness: the iff instantiated at the default policy, the method
name `get_widget` and the read category. -/
theorem c1_witness :
    Crud.read ∈ classify defaultPolicy "get_widget" ↔
      (defaultPolicy.gate Crud.read = true ∧
        ∃ w ∈ defaultPolicy.keywords Crud.read,
          pyInStr (pyLower w) (pyLower "get_widget") = true) :=
  c1_classify_iff defaultInputs emptyEnv defaultPolicy rfl "get_widget" Crud.read

/-- C2: when the operation name does not resolve on the client,
`_run` returns exactly the string `Invalid function name: <name>` and
raises nothing, for every input. -/
theorem c2_invalid_name (c : SdkClient) (n : String) (input : ToolInput)
    (h : c.getattr n = none) :
    runTool c n input = Except.ok ("Invalid function name: " ++ n) := by
  simp [runTool, h]

/-- C2 witness: invoking the unresolvable name `frobnicate`. -/
theorem c2_witness :
    runTool exampleClient "frobnicate" ToolInput.pynone =
      Except.ok ("Invalid function name: " ++ "frobnicate") :=
  c2_invalid_name exampleClient "frobnicate" ToolInput.pynone rfl

/-- C3 counterexample: `get_data` resolves on the client and its call
raises `AttributeError`, yet `_run` returns the invalid-name string
instead of propagating the exception — the `except AttributeError`
wraps the whole body, not just the name resolution. -/
theorem c3_counterexample :
    c3Client.getattr "get_data" = some (SdkAttr.method (some "Gets data.") attrRaiser) ∧
    attrRaiser [] = Except.error (PyExn.attributeError "boom") ∧
    runTool c3Client "get_data" ToolInput.pynone =
      Except.ok "Invalid function name: get_data" :=
  ⟨rfl, rfl, rfl⟩

/-- C3 amended: when the name resolves to a method, an exception from
the underlying call propagates unchanged unless it is an
`AttributeError`, which is caught like the name-resolution failure and
surfaced as the invalid-name string. -/
theorem c3_amended (c : SdkClient) (n : String) (input : ToolInput) (doc : Option String)
    (impl : PyDict → Except PyExn PyRet) (kvs : PyDict) (e : PyExn)
    (hattr : c.getattr n = some (SdkAttr.method doc impl))
    (hp : resolveParams input = JVal.jobj kvs)
    (hcall : impl kvs = Except.error e) :
    runTool c n input =
      (match e with
       | PyExn.attributeError _ => Except.ok ("Invalid function name: " ++ n)
       | _ => Except.error e) := by
  cases e <;> simp [runTool, hattr, hp, hcall]

/-- C3 amended witness: a network-style error from the underlying call
propagates unchanged. -/
theorem c3_witness :
    runTool c3bClient "get_data" ToolInput.pynone =
      Except.error (PyExn.otherError "network down") :=
  c3_amended c3bClient "get_data" ToolInput.pynone (some "Gets data.")
    netRaiser [] (PyExn.otherError "network down") rfl rfl rfl

/-- C4: the resolved keyword-argument set is determined by the input
shape — a mapping is used directly; an undecodable string falls back to
the empty set without raising and the underlying method is still called
exactly as with no arguments; `None` and any other input type resolve
to the empty set. -/
theorem c4_params (c : SdkClient) (n : String) :
    (∀ d : PyDict, resolveParams (ToolInput.dict d) = JVal.jobj d) ∧
    (∀ s : String, jparse s = none →
      resolveParams (ToolInput.str s) = JVal.jobj [] ∧
      runTool c n (ToolInput.str s) = runTool c n ToolInput.pynone) ∧
    resolveParams ToolInput.pynone = JVal.jobj [] ∧
    resolveParams ToolInput.other = JVal.jobj [] := by
  refine ⟨fun d => rfl, fun s hs => ⟨?_, ?_⟩, rfl, rfl⟩
  · simp [resolveParams, hs]
  · simp [runTool, resolveParams, hs]

/-- C4 witness: the non-JSON string input of the spec example resolves
to the empty argument set and the call proceeds as with no input. -/
theorem c4_witness :
    resolveParams (ToolInput.str "not valid json") = JVal.jobj [] ∧
    runTool exampleClient "get_widget" (ToolInput.str "not valid json") =
      runTool exampleClient "get_widget" ToolInput.pynone :=
  (c4_params exampleClient "get_widget").2.1 "not valid json" rfl

/-- C5 counterexample: with `crud_controls` absent, a client exposing a
public callable method without a docstring makes catalog construction
raise a `ValidationError` instead of yielding an empty operations list —
the `AnySDKTool` is constructed before the policy check. -/
theorem c5_counterexample :
    buildOperations noDocClient none =
      Except.error "ValidationError: none is not an allowed value for description of get_stuff" ∧
    buildOperations noDocClient none ≠ Except.ok [] := by
  refine ⟨rfl, fun hcontra => ?_⟩
  have h2 : (Except.error "ValidationError: none is not an allowed value for description of get_stuff" :
      Except String (List AnySDKTool)) = Except.ok [] := hcontra
  exact Except.noConfusion h2

/-- C5 amended: with `crud_controls` absent the operations list is
empty for every client whose public callable methods all have
docstrings (an absent docstring instead fails construction). -/
theorem c5_amended (c : SdkClient)
    (h : ∀ n ∈ sdkFunctions c, (docOf c n).isSome = true) :
    buildOperations c none = Except.ok [] :=
  buildOpsAux_none_ok c (sdkFunctions c) h

/-- C5 amended witness: the documented example client yields the empty
list under an absent policy, though two of its methods match default
read keywords. -/
theorem c5_witness : buildOperations exampleClient none = Except.ok [] :=
  c5_amended exampleClient (by decide)

/-- C6 counterexample: under the default policy the catalog for
`{get_widget, create_widget, _internal}` holds two Operations, not one —
`create_widget` is retained because the read keyword `get` occurs
case-insensitively inside `create_widget` (in `widget`). -/
theorem c6_counterexample :
    validateEnvironment defaultInputs emptyEnv = some defaultPolicy ∧
    pyInStr (pyLower "get") (pyLower "create_widget") = true ∧
    buildOperations exampleClient (some defaultPolicy) =
      Except.ok [⟨"create_widget", "Create a widget."⟩, ⟨"get_widget", "Get a widget."⟩] ∧
    buildOperations exampleClient (some defaultPolicy) ≠
      Except.ok [⟨"get_widget", "Get a widget."⟩] := by
  refine ⟨rfl, rfl, rfl, fun hcontra => ?_⟩
  have h2 : (Except.ok [(⟨"create_widget", "Create a widget."⟩ : AnySDKTool),
      ⟨"get_widget", "Get a widget."⟩] : Except String (List AnySDKTool)) =
      Except.ok [⟨"get_widget", "Get a widget."⟩] := hcontra
  simp at h2

/-- C6 amended: under the default policy the catalog for
`{get_widget, create_widget, _internal}` holds exactly the Operations
`create_widget` and `get_widget`, in listing order: `_internal` is
excluded by the underscore rule, and `create_widget` qualifies under
read because `get` is a case-insensitive substring of its name. -/
theorem c6_amended (p : CrudControls)
    (h : validateEnvironment defaultInputs emptyEnv = some p) :
    buildOperations exampleClient (some p) =
      Except.ok [⟨"create_widget", "Create a widget."⟩, ⟨"get_widget", "Get a widget."⟩] := by
  have h2 : some defaultPolicy = some p := h
  injection h2 with h3
  subst h3
  rfl

/-- C6 amended witness: the amended catalog at the concrete default
policy. -/
theorem c6_witness :
    buildOperations exampleClient (some defaultPolicy) =
      Except.ok [⟨"create_widget", "Create a widget."⟩, ⟨"get_widget", "Get a widget."⟩] :=
  c6_amended defaultPolicy rfl

/-- C7 counterexample: catalog construction is not error-free — a
qualifying method with an absent docstring makes `_build_operations`
raise a `ValidationError` when it builds the `AnySDKTool`, whose
`description` field is declared `str`. -/
theorem c7_counterexample :
    buildOperations noDocClient (some defaultPolicy) =
      Except.error "ValidationError: none is not an allowed value for description of get_stuff" :=
  rfl

/-- C7 amended: catalog construction yields the empty list (not an
error) for a client with no qualifying public callable methods, and
succeeds for every client whose public callable methods all have
docstrings (an empty docstring included); only an absent docstring
fails. -/
theorem c7_amended (c : SdkClient) (cc : Option CrudControls) :
    (sdkFunctions c = [] → buildOperations c cc = Except.ok []) ∧
    ((∀ n ∈ sdkFunctions c, (docOf c n).isSome = true) →
      ∃ ops, buildOperations c cc = Except.ok ops) := by
  constructor
  · intro hemp
    unfold buildOperations
    rw [hemp]
    rfl
  · intro hdocs
    exact buildOpsAux_ok_of_docs c cc (sdkFunctions c) hdocs

/-- C7 amended witness: the empty client builds the empty list, and the
fully documented example client builds successfully. -/
theorem c7_witness :
    buildOperations emptyClient (some defaultPolicy) = Except.ok [] ∧
    ∃ ops, buildOperations exampleClient (some defaultPolicy) = Except.ok ops :=
  ⟨(c7_amended emptyClient (some defaultPolicy)).1 rfl,
   (c7_amended exampleClient (some defaultPolicy)).2 (by decide)⟩

/-- A successful full construction factors through the root validator
on some field-validated inputs. -/
theorem mkCrudControls_ok (s : CrudSupplied) (env : CrudEnv) (o : Option CrudControls)
    (h : mkCrudControls s env = Except.ok o) :
    ∃ i : CrudInputs, o = validateEnvironment i env := by
  unfold mkCrudControls at h
  cases hv : validateSupplied s with
  | error e => rw [hv] at h; simp [Except.map] at h
  | ok i =>
    rw [hv] at h
    simp only [Except.map, Except.ok.injEq] at h
    exact ⟨i, h.symm⟩

/-- After a successful run of the root validator every keyword list is
present and non-empty. -/
theorem validateEnvironment_lists (i : CrudInputs) (env : CrudEnv) (p : CrudControls)
    (h : validateEnvironment i env = some p) :
    (∃ l, p.create_list = some l ∧ l ≠ []) ∧
    (∃ l, p.read_list = some l ∧ l ≠ []) ∧
    (∃ l, p.update_list = some l ∧ l ≠ []) ∧
    (∃ l, p.delete_list = some l ∧ l ≠ []) := by
  obtain ⟨⟨s1, e1⟩, ⟨s2, e2⟩, ⟨s3, e3⟩, ⟨s4, e4⟩⟩ := validate_fields i env p h
  exact ⟨⟨_, e1, commaSplit_ne_nil s1⟩, ⟨_, e2, commaSplit_ne_nil s2⟩,
    ⟨_, e3, commaSplit_ne_nil s3⟩, ⟨_, e4, commaSplit_ne_nil s4⟩⟩

/-- C8 counterexample: an empty-string `create_list` override is falsy
and falls back to the built-in default `["create"]` instead of an empty
sequence; and an override supplied as an explicit list value never
yields the canonical sequence at all — pydantic field validation of the
`Optional[str]` field rejects it with a `ValidationError` — while the
same keywords supplied as a comma-separated string are accepted, so the
list-or-string equivalence clause of the claim fails as well. -/
theorem c8_counterexample :
    mkCrudControls ⟨.fnone, .fstr "", .fnone, .fnone, .fnone, .fnone, .fnone, .fnone⟩
      emptyEnv = Except.ok (some defaultPolicy) ∧
    defaultPolicy.create_list = some ["create"] ∧
    (["create"] : List String) ≠ [] ∧
    mkCrudControls ⟨.fnone, .flist ["get", "read"], .fnone, .fnone, .fnone, .fnone,
      .fnone, .fnone⟩ emptyEnv = Except.error "ValidationError: str type expected" ∧
    mkCrudControls ⟨.fnone, .fstr "get,read", .fnone, .fnone, .fnone, .fnone, .fnone,
      .fnone⟩ emptyEnv =
      Except.ok (some ⟨false, some ["get", "read"], true, some ["get", "read", "list"],
        false, some ["update", "put", "post"], false,
        some ["delete", "destroy", "remove"]⟩) := by
  refine ⟨rfl, rfl, fun hcontra => ?_, rfl, rfl⟩
  simp at hcontra

/-- C8 amended: after construction each of the four keyword lists is a
present (non-`None`) list of strings and never the empty sequence — a
comma split always has at least one element and a falsy (for instance
empty-string) override falls back to the environment or the built-in
default — and an override is accepted only as a comma-separated
string: an explicit list value is rejected by pydantic field validation
with a `ValidationError` rather than canonicalized. -/
theorem c8_amended :
    (∀ (s : CrudSupplied) (env : CrudEnv) (p : CrudControls),
      mkCrudControls s env = Except.ok (some p) →
      (∃ l, p.create_list = some l ∧ l ≠ []) ∧
      (∃ l, p.read_list = some l ∧ l ≠ []) ∧
      (∃ l, p.update_list = some l ∧ l ≠ []) ∧
      (∃ l, p.delete_list = some l ∧ l ≠ [])) ∧
    (∀ l : List String, validateStrField (FieldSupplied.flist l) =
      Except.error "ValidationError: str type expected") := by
  constructor
  · intro s env p h
    obtain ⟨i, hi⟩ := mkCrudControls_ok s env (some p) h
    exact validateEnvironment_lists i env p hi.symm
  · intro l
    rfl

/-- C8 amended witness: the invariant at the all-defaults construction,
and the rejection of a concrete list override. -/
theorem c8_witness :
    ((∃ l, defaultPolicy.create_list = some l ∧ l ≠ []) ∧
     (∃ l, defaultPolicy.read_list = some l ∧ l ≠ []) ∧
     (∃ l, defaultPolicy.update_list = some l ∧ l ≠ []) ∧
     (∃ l, defaultPolicy.delete_list = some l ∧ l ≠ [])) ∧
    validateStrField (FieldSupplied.flist ["create"]) =
      Except.error "ValidationError: str type expected" :=
  ⟨c8_amended.1 allNoneSupplied emptyEnv defaultPolicy rfl, c8_amended.2 ["create"]⟩

/-- C9: a successful catalog build appends, for each enumerated method
name in order, one Operation per category the policy classifies the
name under (in the order create, read, update, delete), so a name
matching several enabled categories yields duplicate Operations. -/
theorem c9_duplicates (c : SdkClient) (p : CrudControls) (ops : List AnySDKTool)
    (h : buildOperations c (some p) = Except.ok ops) :
    ops = (sdkFunctions c).bind
      (fun n => (classify p n).map (fun _ => (⟨n, (docOf c n).getD ""⟩ : AnySDKTool))) := by
  have h2 := buildOpsAux_ok_eq c (some p) (sdkFunctions c) ops h
  simpa only [matchedOps_eq_classify] using h2

/-- C9 witness: a client whose method `get_update_widget` matches both
the read and the update keywords of an enabled policy receives two
identical Operations. -/
theorem c9_witness :
    ([⟨"get_update_widget", "Get or update."⟩,
      ⟨"get_update_widget", "Get or update."⟩] : List AnySDKTool) =
      (sdkFunctions dupClient).bind
        (fun n => (classify dupPolicy n).map
          (fun _ => (⟨n, (docOf dupClient n).getD ""⟩ : AnySDKTool))) :=
  c9_duplicates dupClient dupPolicy _ rfl

/-! ### Round-trip development for the JSON model -/

/-- Induction principle for `JVal` giving elementwise hypotheses for
the nested lists. -/
theorem jval_ind (P : JVal → Prop)
    (hnull : P .jnull) (hbool : ∀ b, P (.jbool b)) (hintg : ∀ i, P (.jint i))
    (hstr : ∀ s, P (.jstr s))
    (harr : ∀ xs, (∀ x ∈ xs, P x) → P (.jarr xs))
    (hobj : ∀ kvs, (∀ kv ∈ kvs, P kv.2) → P (.jobj kvs)) :
    ∀ v, P v
  | .jnull => hnull
  | .jbool b => hbool b
  | .jint i => hintg i
  | .jstr s => hstr s
  | .jarr xs => harr xs (fun x hx => jval_ind P hnull hbool hintg hstr harr hobj x)
  | .jobj kvs => hobj kvs (fun kv hkv => jval_ind P hnull hbool hintg hstr harr hobj kv.2)
termination_by v => sizeOf v
decreasing_by
  · have := List.sizeOf_lt_of_mem hx
    simp only [JVal.jarr.sizeOf_spec]
    omega
  · have h1 := List.sizeOf_lt_of_mem hkv
    have h2 : sizeOf kv.2 < sizeOf kv := by
      obtain ⟨a, b⟩ := kv
      simp only [Prod.mk.sizeOf_spec]
      omega
    simp only [JVal.jobj.sizeOf_spec]
    omega

/-- Induction principle for `PyRet` giving elementwise hypotheses for
the nested lists. -/
theorem pyret_ind (P : PyRet → Prop)
    (hnull : P .rnull) (hbool : ∀ b, P (.rbool b)) (hintg : ∀ i, P (.rint i))
    (hstr : ∀ s, P (.rstr s)) (hother : ∀ s, P (.robj s))
    (hlist : ∀ xs, (∀ x ∈ xs, P x) → P (.rlist xs))
    (hdict : ∀ kvs, (∀ kv ∈ kvs, P kv.2) → P (.rdict kvs)) :
    ∀ r, P r
  | .rnull => hnull
  | .rbool b => hbool b
  | .rint i => hintg i
  | .rstr s => hstr s
  | .robj s => hother s
  | .rlist xs => hlist xs (fun x hx => pyret_ind P hnull hbool hintg hstr hother hlist hdict x)
  | .rdict kvs =>
      hdict kvs (fun kv hkv => pyret_ind P hnull hbool hintg hstr hother hlist hdict kv.2)
termination_by r => sizeOf r
decreasing_by
  · have := List.sizeOf_lt_of_mem hx
    simp only [PyRet.rlist.sizeOf_spec]
    omega
  · have h1 := List.sizeOf_lt_of_mem hkv
    have h2 : sizeOf kv.2 < sizeOf kv := by
      obtain ⟨a, b⟩ := kv
      simp only [Prod.mk.sizeOf_spec]
      omega
    simp only [PyRet.rdict.sizeOf_spec]
    omega

/-- A digit character is a digit. -/
theorem digitChar_isDigit (d : Nat) (h : d < 10) : (digitChar d).isDigit = true := by
  interval_cases d <;> decide

/-- The code point of a digit character. -/
theorem digitChar_toNat (d : Nat) (h : d < 10) : (digitChar d).toNat = 48 + d := by
  interval_cases d <;> decide

/-- Every character of a decimal rendering is a digit. -/
theorem natCharsAux_digits (fuel : Nat) :
    ∀ n, n < fuel → ∀ c ∈ natCharsAux fuel n, c.isDigit = true := by
  induction fuel with
  | zero => intro n h; omega
  | succ f ih =>
    intro n h c hc
    rw [natCharsAux] at hc
    split at hc
    · rename_i h10
      simp only [List.mem_singleton] at hc
      subst hc
      exact digitChar_isDigit n h10
    · rename_i h10
      rw [List.mem_append] at hc
      rcases hc with hc | hc
      · have hdiv : n / 10 < n := Nat.div_lt_self (by omega) (by omega)
        exact ih (n / 10) (by omega) c hc
      · simp only [List.mem_singleton] at hc
        subst hc
        exact digitChar_isDigit _ (Nat.mod_lt _ (by omega))

/-- A decimal rendering is never empty. -/
theorem natCharsAux_ne_nil (fuel n : Nat) (h : n < fuel) : natCharsAux fuel n ≠ [] := by
  cases fuel with
  | zero => omega
  | succ f =>
    rw [natCharsAux]
    split
    · simp
    · simp

/-- Evaluating digits after appending one more digit character. -/
theorem digitsVal_append_single (ds : List Char) (c : Char) :
    digitsVal (ds ++ [c]) = digitsVal ds * 10 + (c.toNat - 48) := by
  simp [digitsVal, List.foldl_append]

/-- The decimal rendering evaluates back to the rendered number. -/
theorem digitsVal_natCharsAux (fuel : Nat) :
    ∀ n, n < fuel → digitsVal (natCharsAux fuel n) = n := by
  induction fuel with
  | zero => intro n h; omega
  | succ f ih =>
    intro n h
    rw [natCharsAux]
    split
    · rename_i h10
      simp [digitsVal, digitChar_toNat n h10]
    · rename_i h10
      have hdiv : n / 10 < n := Nat.div_lt_self (by omega) (by omega)
      rw [digitsVal_append_single, ih (n / 10) (by omega),
        digitChar_toNat (n % 10) (Nat.mod_lt _ (by omega))]
      omega

/-- Digit property of `natChars`. -/
theorem natChars_digits (n : Nat) : ∀ c ∈ natChars n, c.isDigit = true :=
  natCharsAux_digits (n + 1) n (Nat.lt_succ_self n)

/-- Non-emptiness of `natChars`. -/
theorem natChars_ne_nil (n : Nat) : natChars n ≠ [] :=
  natCharsAux_ne_nil _ _ (Nat.lt_succ_self n)

/-- Round trip of the decimal rendering. -/
theorem digitsVal_natChars (n : Nat) : digitsVal (natChars n) = n :=
  digitsVal_natCharsAux _ _ (Nat.lt_succ_self n)

/-- `takeDigits` consumes nothing from a list with no leading digit. -/
theorem takeDigits_nondigit (l : List Char) (h : headNotDigit l = true) :
    takeDigits l = ([], l) := by
  cases l with
  | nil => rfl
  | cons c t =>
    simp only [headNotDigit, Bool.not_eq_true'] at h
    simp [takeDigits, h]

/-- `takeDigits` consumes exactly a digit block in front of a
non-digit continuation. -/
theorem takeDigits_append (ds rest : List Char) (hds : ∀ c ∈ ds, c.isDigit = true)
    (hrest : headNotDigit rest = true) : takeDigits (ds ++ rest) = (ds, rest) := by
  induction ds with
  | nil => simpa using takeDigits_nondigit rest hrest
  | cons d t ih =>
    have hd := hds d (by simp)
    have ih2 := ih (fun c hc => hds c (by simp [hc]))
    simp [takeDigits, hd, ih2]

/-- The decimal decoder reads back the decimal rendering. -/
theorem parseDecimal_natChars (n : Nat) (rest : List Char)
    (hrest : headNotDigit rest = true) :
    parseDecimal (natChars n ++ rest) = some (n, rest) := by
  unfold parseDecimal
  rw [takeDigits_append (natChars n) rest (natChars_digits n) hrest]
  cases hnc : natChars n with
  | nil => exact absurd hnc (natChars_ne_nil n)
  | cons c t =>
    have : digitsVal (c :: t) = n := by rw [← hnc, digitsVal_natChars]
    simp [this]

/-- The decoder consumes an immediate closing quote. -/
theorem parseStrChars_quote (rest : List Char) :
    parseStrChars ('\"' :: rest) = some ([], rest) := rfl

/-- The decoder unescapes an escaped backslash. -/
theorem parseStrChars_bs_bs (rest : List Char) :
    parseStrChars ('\\' :: '\\' :: rest) =
      (parseStrChars rest).map (fun p => ('\\' :: p.1, p.2)) := rfl

/-- The decoder unescapes an escaped quote. -/
theorem parseStrChars_bs_quote (rest : List Char) :
    parseStrChars ('\\' :: '\"' :: rest) =
      (parseStrChars rest).map (fun p => ('\"' :: p.1, p.2)) := rfl

/-- The decoder consumes an unescaped plain character. -/
theorem parseStrChars_plain (c : Char) (t : List Char)
    (hq : ¬c = '\"') (hbs : ¬c = '\\') :
    parseStrChars (c :: t) = (parseStrChars t).map (fun p => (c :: p.1, p.2)) := by
  rw [parseStrChars.eq_def]
  simp [hq, hbs]

/-- The string-content decoder reads back the escaped rendering. -/
theorem parseStrChars_esc (cs rest : List Char) :
    parseStrChars (escChars cs ++ '\"' :: rest) = some (cs, rest) := by
  induction cs with
  | nil => simp [escChars, parseStrChars_quote]
  | cons c t ih =>
    by_cases hbs : c = '\\'
    · subst hbs
      have he : escChar '\\' = ['\\', '\\'] := rfl
      simp only [escChars, he, List.cons_append, List.nil_append]
      rw [parseStrChars_bs_bs, ih]
      rfl
    · by_cases hq : c = '\"'
      · subst hq
        have he : escChar '\"' = ['\\', '\"'] := rfl
        simp only [escChars, he, List.cons_append, List.nil_append]
        rw [parseStrChars_bs_quote, ih]
        rfl
      · have he : escChar c = [c] := by simp [escChar, hbs, hq]
        simp only [escChars, he, List.cons_append, List.nil_append]
        rw [parseStrChars_plain c _ hq hbs, ih]
        rfl

/-- Rebuilding a string from its character list is the identity. -/
theorem mk_toList (s : String) : String.mk s.toList = s := rfl

/-- The value decoder fails on a closing bracket. -/
theorem jparseV_rbracket (f : Nat) (rest : List Char) : jparseV f (']' :: rest) = none := by
  cases f with
  | zero => rfl
  | succ g => simp [jparseV]

/-- Positivity of the value fuel gauge. -/
theorem jfuel_pos (v : JVal) : 1 ≤ jfuel v := by
  cases v <;> simp [jfuel]

/-- Positivity of the item fuel gauge. -/
theorem jfuelItems_pos (ys : List JVal) : 1 ≤ jfuelItems ys := by
  cases ys with
  | nil => simp [jfuelItems]
  | cons x t => cases t <;> simp [jfuelItems] <;> omega

/-- Positivity of the member fuel gauge. -/
theorem jfuelFields_pos (ys : List (String × JVal)) : 1 ≤ jfuelFields ys := by
  cases ys with
  | nil => simp [jfuelFields]
  | cons kv t =>
    obtain ⟨k, v⟩ := kv
    cases t <;> simp [jfuelFields] <;> omega

/-- The value decoder on a leading minus sign. -/
theorem jparseV_dash (g : Nat) (l : List Char) :
    jparseV (g + 1) ('-' :: l) =
      (parseDecimal l).map (fun p => (JVal.jint (-(Int.ofNat p.1)), p.2)) := rfl

/-- The value decoder on a leading double quote. -/
theorem jparseV_quote (g : Nat) (l : List Char) :
    jparseV (g + 1) ('\"' :: l) =
      (parseStrChars l).map (fun p => (JVal.jstr (String.mk p.1), p.2)) := rfl

/-- The value decoder on a leading opening bracket. -/
theorem jparseV_lbracket (g : Nat) (l : List Char) :
    jparseV (g + 1) ('[' :: l) =
      (jparseItems g l).map (fun p => (JVal.jarr p.1, p.2)) := rfl

/-- The value decoder on a leading opening brace. -/
theorem jparseV_lbrace (g : Nat) (l : List Char) :
    jparseV (g + 1) ('\x7b' :: l) =
      (jparseFields g l).map (fun p => (JVal.jobj p.1, p.2)) := rfl

/-- The value decoder on a leading digit. -/
theorem jparseV_digit (g : Nat) (c : Char) (l : List Char) (h : c.isDigit = true) :
    jparseV (g + 1) (c :: l) =
      (parseDecimal (c :: l)).map (fun p => (JVal.jint (Int.ofNat p.1), p.2)) := by
  simp [jparseV, h]

/-- The decoder reads back an encoded array element list. -/
theorem parsePrintItemsAux (ys : List JVal)
    (hP : ∀ x ∈ ys, ∀ f rest, jfuel x ≤ f → headNotDigit rest = true →
      jparseV f (jprint x ++ rest) = some (x, rest)) :
    ∀ f rest, jfuelItems ys ≤ f →
      jparseItems f (jprintItems ys ++ ']' :: rest) = some (ys, rest) := by
  induction ys with
  | nil =>
    intro f rest hf
    obtain ⟨g, rfl⟩ : ∃ g, f = g + 1 := ⟨f - 1, by simp [jfuelItems] at hf; omega⟩
    simp only [jprintItems, List.nil_append, jparseItems]
    rw [jparseV_rbracket]
  | cons x t ih =>
    intro f rest hf
    cases t with
    | nil =>
      have hfx : 1 + jfuel x ≤ f := by simpa [jfuelItems] using hf
      obtain ⟨g, rfl⟩ : ∃ g, f = g + 1 := ⟨f - 1, by omega⟩
      simp only [jprintItems, jparseItems]
      rw [hP x (by simp) g (']' :: rest) (by omega) rfl]
      rfl
    | cons y t2 =>
      have hfs : 1 + jfuel x + jfuelItems (y :: t2) ≤ f := by
        simpa [jfuelItems] using hf
      obtain ⟨g, rfl⟩ : ∃ g, f = g + 1 := ⟨f - 1, by omega⟩
      simp only [jprintItems, List.cons_append, List.append_assoc, jparseItems]
      rw [hP x (by simp) g (',' :: (jprintItems (y :: t2) ++ ']' :: rest)) (by omega) rfl]
      have ih2 := ih (fun z hz => hP z (by simp [hz])) g rest (by omega)
      simp [ih2]

/-- The decoder reads back an encoded object member list. -/
theorem parsePrintFieldsAux (ys : List (String × JVal))
    (hP : ∀ kv ∈ ys, ∀ f rest, jfuel kv.2 ≤ f → headNotDigit rest = true →
      jparseV f (jprint kv.2 ++ rest) = some (kv.2, rest)) :
    ∀ f rest, jfuelFields ys ≤ f →
      jparseFields f (jprintFields ys ++ '\x7d' :: rest) = some (ys, rest) := by
  induction ys with
  | nil =>
    intro f rest hf
    obtain ⟨g, rfl⟩ : ∃ g, f = g + 1 := ⟨f - 1, by simp [jfuelFields] at hf; omega⟩
    simp only [jprintFields, List.nil_append]
    rfl
  | cons kv t ih =>
    obtain ⟨k, v⟩ := kv
    intro f rest hf
    cases t with
    | nil =>
      have hPv : ∀ f rest, jfuel v ≤ f → headNotDigit rest = true →
          jparseV f (jprint v ++ rest) = some (v, rest) := hP ⟨k, v⟩ (by simp)
      have hfv : 1 + jfuel v ≤ f := by simpa [jfuelFields] using hf
      obtain ⟨g, rfl⟩ : ∃ g, f = g + 1 := ⟨f - 1, by omega⟩
      have hPv2 := hPv g ('\x7d' :: rest) (by omega) rfl
      simp only [jprintFields, strChars, List.cons_append, List.append_assoc,
        List.singleton_append, List.nil_append, jparseFields]
      rw [parseStrChars_esc]
      simp [hPv2, mk_toList]
    | cons p t2 =>
      have hPv : ∀ f rest, jfuel v ≤ f → headNotDigit rest = true →
          jparseV f (jprint v ++ rest) = some (v, rest) := hP ⟨k, v⟩ (by simp)
      have hfs : 1 + jfuel v + jfuelFields (p :: t2) ≤ f := by
        simpa [jfuelFields] using hf
      obtain ⟨g, rfl⟩ : ∃ g, f = g + 1 := ⟨f - 1, by omega⟩
      have hPv2 := hPv g (',' :: (jprintFields (p :: t2) ++ '\x7d' :: rest)) (by omega) rfl
      have ih2 := ih (fun z hz => hP z (by simp [hz])) g rest (by omega)
      simp only [jprintFields, strChars, List.cons_append, List.append_assoc,
        List.singleton_append, List.nil_append, jparseFields]
      rw [parseStrChars_esc]
      simp [hPv2, ih2, mk_toList]

/-- The decoder reads back every encoded value, leaving any non-digit
continuation untouched. -/
theorem parsePrintV (v : JVal) :
    ∀ f rest, jfuel v ≤ f → headNotDigit rest = true →
      jparseV f (jprint v ++ rest) = some (v, rest) := by
  induction v using jval_ind with
  | hnull =>
    intro f rest hf _
    obtain ⟨g, rfl⟩ : ∃ g, f = g + 1 := ⟨f - 1, by simp [jfuel] at hf; omega⟩
    rfl
  | hbool b =>
    intro f rest hf _
    obtain ⟨g, rfl⟩ : ∃ g, f = g + 1 := ⟨f - 1, by simp [jfuel] at hf; omega⟩
    cases b <;> rfl
  | hintg i =>
    intro f rest hf hrest
    obtain ⟨g, rfl⟩ : ∃ g, f = g + 1 := ⟨f - 1, by simp [jfuel] at hf; omega⟩
    simp only [jprint, intChars]
    by_cases hneg : i < 0
    · rw [if_pos hneg, List.cons_append, jparseV_dash, parseDecimal_natChars _ _ hrest]
      have hcast : -(Int.ofNat i.natAbs) = i := by
        have h1 : (Int.ofNat i.natAbs) = (i.natAbs : Int) := rfl
        rw [h1]
        omega
      show some (JVal.jint (-(Int.ofNat i.natAbs)), rest) = some (JVal.jint i, rest)
      rw [hcast]
    · rw [if_neg hneg]
      cases hnc : natChars i.toNat with
      | nil => exact absurd hnc (natChars_ne_nil _)
      | cons c t =>
        have hcd : c.isDigit = true := natChars_digits i.toNat c (by rw [hnc]; simp)
        rw [List.cons_append, jparseV_digit g c _ hcd, ← List.cons_append, ← hnc,
          parseDecimal_natChars _ _ hrest]
        have hcast : Int.ofNat i.toNat = i := by
          have h1 : (Int.ofNat i.toNat) = (i.toNat : Int) := rfl
          rw [h1]
          omega
        show some (JVal.jint (Int.ofNat i.toNat), rest) = some (JVal.jint i, rest)
        rw [hcast]
  | hstr s =>
    intro f rest hf _
    obtain ⟨g, rfl⟩ : ∃ g, f = g + 1 := ⟨f - 1, by simp [jfuel] at hf; omega⟩
    simp only [jprint, strChars, List.cons_append, List.append_assoc, List.singleton_append]
    rw [jparseV_quote, parseStrChars_esc]
    simp [mk_toList]
  | harr xs ihx =>
    intro f rest hf _
    have hfi : 1 + jfuelItems xs ≤ f := by simpa [jfuel] using hf
    obtain ⟨g, rfl⟩ : ∃ g, f = g + 1 := ⟨f - 1, by omega⟩
    simp only [jprint, List.cons_append, List.append_assoc, List.singleton_append,
      List.nil_append]
    rw [jparseV_lbracket, parsePrintItemsAux xs ihx g rest (by omega)]
    rfl
  | hobj kvs ihk =>
    intro f rest hf _
    have hfi : 1 + jfuelFields kvs ≤ f := by simpa [jfuel] using hf
    obtain ⟨g, rfl⟩ : ∃ g, f = g + 1 := ⟨f - 1, by omega⟩
    simp only [jprint, List.cons_append, List.append_assoc, List.singleton_append,
      List.nil_append]
    rw [jparseV_lbrace, parsePrintFieldsAux kvs ihk g rest (by omega)]
    rfl

/-- The item fuel gauge is bounded by the encoded length plus one. -/
theorem jfuelItems_le (xs : List JVal) (h : ∀ x ∈ xs, jfuel x ≤ (jprint x).length) :
    jfuelItems xs ≤ (jprintItems xs).length + 1 := by
  induction xs with
  | nil => simp [jfuelItems, jprintItems]
  | cons x t ih =>
    cases t with
    | nil =>
      have hx := h x (by simp)
      simp only [jfuelItems, jprintItems]
      omega
    | cons y t2 =>
      have hx := h x (by simp)
      have ht := ih (fun z hz => h z (by simp [hz]))
      simp only [jfuelItems, jprintItems, List.length_append, List.length_cons] at *
      omega

/-- The member fuel gauge is bounded by the encoded length plus one. -/
theorem jfuelFields_le (ys : List (String × JVal))
    (h : ∀ kv ∈ ys, jfuel kv.2 ≤ (jprint kv.2).length) :
    jfuelFields ys ≤ (jprintFields ys).length + 1 := by
  induction ys with
  | nil => simp [jfuelFields, jprintFields]
  | cons kv t ih =>
    obtain ⟨k, v⟩ := kv
    have hv : jfuel v ≤ (jprint v).length := h ⟨k, v⟩ (by simp)
    cases t with
    | nil =>
      simp only [jfuelFields, jprintFields, List.length_append, List.length_cons]
      omega
    | cons p t2 =>
      have ht := ih (fun z hz => h z (by simp [hz]))
      simp only [jfuelFields, jprintFields, List.length_append, List.length_cons] at *
      omega

/-- The value fuel gauge is bounded by the encoded length. -/
theorem jfuel_le (v : JVal) : jfuel v ≤ (jprint v).length := by
  induction v using jval_ind with
  | hnull => simp [jfuel, jprint]
  | hbool b => cases b <;> simp [jfuel, jprint]
  | hintg i =>
    have hne : intChars i ≠ [] := by
      unfold intChars
      split
      · simp
      · exact natChars_ne_nil _
    have : 1 ≤ (intChars i).length := by
      cases hi : intChars i with
      | nil => exact absurd hi hne
      | cons c t => simp
    simpa [jfuel, jprint] using this
  | hstr s => simp [jfuel, jprint, strChars]
  | harr xs ihx =>
    have hb := jfuelItems_le xs ihx
    simp only [jfuel, jprint, List.length_cons, List.length_append, List.length_nil]
    omega
  | hobj kvs ihk =>
    have hb := jfuelFields_le kvs ihk
    simp only [jfuel, jprint, List.length_cons, List.length_append, List.length_nil]
    omega

/-- Round trip: the decoder reads back exactly what the encoder wrote. -/
theorem jparse_jdumps (v : JVal) : jparse (jdumps v) = some v := by
  unfold jparse jdumps
  have htl : (String.mk (jprint v)).toList = jprint v := rfl
  rw [htl]
  have h := parsePrintV v ((jprint v).length + 1) []
    (le_trans (jfuel_le v) (Nat.le_succ _)) rfl
  rw [List.append_nil] at h
  rw [h]

/-- Elementwise agreement of `degrade` with `retToJ` on lists. -/
theorem degradeList_of_retToJList (l : List PyRet)
    (hmem : ∀ x ∈ l, ∀ v, retToJ x = some v → degrade x = v) :
    ∀ vs, retToJList l = some vs → degradeList l = vs := by
  induction l with
  | nil =>
    intro vs h
    simp only [retToJList, Option.some.injEq] at h
    simp [degradeList, ← h]
  | cons a t ih =>
    intro vs h
    simp only [retToJList] at h
    cases ha : retToJ a with
    | none => rw [ha] at h; simp at h
    | some w =>
      cases hts : retToJList t with
      | none => rw [ha, hts] at h; simp at h
      | some ws =>
        rw [ha, hts] at h
        simp only [Option.some.injEq] at h
        subst h
        simp only [degradeList]
        rw [hmem a (by simp) w ha, ih (fun x hx => hmem x (by simp [hx])) ws hts]

/-- Memberwise agreement of `degrade` with `retToJ` on mappings. -/
theorem degradeFields_of_retToJFields (l : List (String × PyRet))
    (hmem : ∀ kv ∈ l, ∀ v, retToJ kv.2 = some v → degrade kv.2 = v) :
    ∀ vs, retToJFields l = some vs → degradeFields l = vs := by
  induction l with
  | nil =>
    intro vs h
    simp only [retToJFields, Option.some.injEq] at h
    simp [degradeFields, ← h]
  | cons kv t ih =>
    obtain ⟨k, a⟩ := kv
    intro vs h
    simp only [retToJFields] at h
    cases ha : retToJ a with
    | none => rw [ha] at h; simp at h
    | some w =>
      cases hts : retToJFields t with
      | none => rw [ha, hts] at h; simp at h
      | some ws =>
        rw [ha, hts] at h
        simp only [Option.some.injEq] at h
        subst h
        simp only [degradeFields]
        have hma : ∀ v, retToJ a = some v → degrade a = v := hmem ⟨k, a⟩ (by simp)
        rw [hma w ha, ih (fun x hx => hmem x (by simp [hx])) ws hts]

/-- On JSON-native return values the `default=str` encoder input agrees
with the JSON value of the return value. -/
theorem degrade_of_retToJ (r : PyRet) : ∀ v, retToJ r = some v → degrade r = v := by
  induction r using pyret_ind with
  | hnull =>
    intro v hv
    simp only [retToJ, Option.some.injEq] at hv
    simp [degrade, ← hv]
  | hbool b =>
    intro v hv
    simp only [retToJ, Option.some.injEq] at hv
    simp [degrade, ← hv]
  | hintg i =>
    intro v hv
    simp only [retToJ, Option.some.injEq] at hv
    simp [degrade, ← hv]
  | hstr s =>
    intro v hv
    simp only [retToJ, Option.some.injEq] at hv
    simp [degrade, ← hv]
  | hother s =>
    intro v hv
    simp [retToJ] at hv
  | hlist xs ih =>
    intro v hv
    simp only [retToJ] at hv
    cases hls : retToJList xs with
    | none => rw [hls] at hv; simp at hv
    | some vs =>
      rw [hls] at hv
      simp only [Option.map_some', Option.some.injEq] at hv
      subst hv
      simp only [degrade]
      rw [degradeList_of_retToJList xs ih vs hls]
  | hdict kvs ih =>
    intro v hv
    simp only [retToJ] at hv
    cases hls : retToJFields kvs with
    | none => rw [hls] at hv; simp at hv
    | some vs =>
      rw [hls] at hv
      simp only [Option.map_some', Option.some.injEq] at hv
      subst hv
      simp only [degrade]
      rw [degradeFields_of_retToJFields kvs ih vs hls]

/-- C10: a successful invocation returns the `default=str` JSON
serialization of the return value, and for a return value composed only
of JSON-native types that string re-parses to exactly the original
value; a non-native leaf instead degrades to the JSON string of its
`str(...)` rendering. -/
theorem c10_roundtrip (c : SdkClient) (n : String) (input : ToolInput) (doc : Option String)
    (impl : PyDict → Except PyExn PyRet) (kvs : PyDict) (r : PyRet) (v : JVal)
    (hattr : c.getattr n = some (SdkAttr.method doc impl))
    (hp : resolveParams input = JVal.jobj kvs)
    (hcall : impl kvs = Except.ok r)
    (hnat : retToJ r = some v) :
    runTool c n input = Except.ok (jdumpsDefaultStr r) ∧
    jparse (jdumpsDefaultStr r) = some v := by
  constructor
  · simp [runTool, hattr, hp, hcall]
  · rw [jdumpsDefaultStr, degrade_of_retToJ r v hnat, jparse_jdumps]

/-- C10 witness: the nested native return value of `get_widget`
round-trips through the serialized invocation result. -/
theorem c10_witness :
    runTool exampleClient "get_widget" ToolInput.pynone =
      Except.ok (jdumpsDefaultStr retWidget) ∧
    jparse (jdumpsDefaultStr retWidget) = some jWidget :=
  c10_roundtrip exampleClient "get_widget" ToolInput.pynone (some "Get a widget.")
    widgetImpl [] retWidget jWidget rfl rfl rfl rfl
